import Mathlib

/-!
Verification of the IntelliBrowse agent orchestration core.

This file gives a shallow embedding, in Lean, of the agent orchestration
layer of the IntelliBrowse repository:

* the Action Parser (`AgentCommunicationProtocol.parseToolCall`), modelled
  faithfully after the two JavaScript regular expressions it is built from;
* tool dispatch (`AgentCommunicationProtocol.executeToolCall`);
* the buffered Reason-Act-Observe loop
  (`AgentCommunicationProtocol.continueConversation`);
* the streaming loop (`AgentCommunicationProtocol.processInstructionStream`),
  including the trailing max-turns check;
* the orchestration facade (`AgentService.processInstruction` /
  `AgentService.processInstructionStream`) with its in-memory session store.

The model provider and the tools are external collaborators; they are
represented by explicit deterministic stubs passed in as functions
(`List Message → String` for the buffered provider, `List Message →
List String` for the chunked streaming provider, and
`List (String × String) → Except String String` for a tool, where
`Except.error m` models the tool throwing an error with message `m`).

Theorems `C1` through `C10` below settle the corresponding claims about
the specification.
-/

set_option maxHeartbeats 1000000

/-- Characters matched by the JavaScript regex class `\w`:
ASCII letters, ASCII digits and the underscore. -/
def isWordChar (c : Char) : Bool :=
  c.isAlpha || c.isDigit || c == '_'

/-- The character set matched by the JavaScript regex class `\s`:
ASCII whitespace plus the Unicode whitespace code points. -/
def jsWhitespace : List Char :=
  [' ', '\t', '\n', '\r', '\x0b', '\x0c', '\u00A0', '\u1680',
   '\u2000', '\u2001', '\u2002', '\u2003', '\u2004', '\u2005', '\u2006',
   '\u2007', '\u2008', '\u2009', '\u200A',
   '\u2028', '\u2029', '\u202F', '\u205F', '\u3000', '\uFEFF']

/-- JavaScript `\s`. -/
def isSpaceChar (c : Char) : Bool := jsWhitespace.contains c

/-- Line terminators: the characters that the JavaScript `.` metacharacter
(without the `s` flag) refuses to match. -/
def isLineTerm (c : Char) : Bool :=
  c == '\n' || c == '\r' || c == '\u2028' || c == '\u2029'

/-- The value part of one attempt of the parameter regex
`(\w+)="((?:[^"\\]|\\.)*)"` from `parseToolCall`: greedily consume
`(?:[^"\\]|\\.)*`, then require the closing `"`.  On success, return the raw
(still escaped) captured value together with the remainder after the closing
quote; the remainder is strictly shorter than the input, which the scanner
records so that the surrounding parameter scan is visibly terminating.
Greedy consumption is equivalent to the backtracking regex here because the
repetition can never consume an unescaped `"`. -/
def scanValue : (l : List Char) → Option (List Char × {r : List Char // r.length < l.length})
  | [] => none
  | c :: rest =>
    if c == '"' then some ([], ⟨rest, by simp⟩)
    else if c == '\\' then
      match rest with
      | [] => none
      | c2 :: rest2 =>
        if isLineTerm c2 then none
        else
          match scanValue rest2 with
          | some (v, r) => some (c :: c2 :: v, ⟨r.1, by have := r.2; simp; omega⟩)
          | none => none
    else
      match scanValue rest with
      | some (v, r) => some (c :: v, ⟨r.1, by have := r.2; simp; omega⟩)
      | none => none

/-- Model of `String.prototype.replace(/\\"/g, '"')` on the captured value:
rewrite every `\"` pair to a bare `"`. -/
def unescapeQuotes : List Char → List Char
  | '\\' :: '"' :: rest => '"' :: unescapeQuotes rest
  | c :: rest => c :: unescapeQuotes rest
  | [] => []

/-- The parameter scan of `parseToolCall`:
`paramsString.matchAll(/(\w+)="((?:[^"\\]|\\.)*)"/g)`, with each captured
value unescaped.  Matches are found left to right and are non-overlapping:
after a successful match the scan resumes after its closing quote, and a
failed attempt moves the start position one character to the right, exactly
as the JavaScript global regex scan does. -/
def paramScan : (l : List Char) → List (String × String)
  | [] => []
  | c :: rest =>
    if isWordChar c then
      match h : (c :: rest).dropWhile isWordChar with
      | '=' :: '"' :: r2 =>
        match scanValue r2 with
        | some (v, r3) =>
          (⟨(c :: rest).takeWhile isWordChar⟩, ⟨unescapeQuotes v⟩) :: paramScan r3.1
        | none => paramScan rest
      | _ => paramScan rest
    else paramScan rest
termination_by l => l.length
decreasing_by
  all_goals first
    | (simp only [List.length_cons]; omega)
    | (have hb := r3.2
       have hle : ∀ l : List Char, (List.dropWhile isWordChar l).length ≤ l.length := by
         intro l
         have hh := congrArg List.length (List.takeWhile_append_dropWhile isWordChar l)
         rw [List.length_append] at hh
         omega
       refine lt_of_lt_of_le ?_ (hle _)
       rw [h]
       simp only [List.length_cons]
       omega)

/-- A structured tool invocation extracted from assistant text. -/
structure ToolCall where
  toolName : String
  params : List (String × String)
deriving Repr, DecidableEq

/-- The literal `Action:` that anchors the action regex. -/
def actionLit : List Char := ['A', 'c', 't', 'i', 'o', 'n', ':']

/-- The `\(([^)]*)\)` tail of the action regex `Action:\s*(\w+(\.\w+)?)\(([^)]*)\)`:
after the opening parenthesis, capture greedily up to (and require) the first
closing parenthesis. -/
def extractArgs (nm : List Char) (r : List Char) : Option (List Char × List Char) :=
  match r.dropWhile (fun c => !(c == ')')) with
  | ')' :: _ => some (nm, r.takeWhile (fun c => !(c == ')')))
  | _ => none

/-- One attempt of the action regex at a position where the literal `Action:`
has just been consumed: `\s*` then the tool name `\w+(\.\w+)?` then the
parenthesised argument capture.  The dotted alternative is attempted first and
falling back to the undotted name cannot succeed once a `.` follows the first
word run, mirroring the regex engine's backtracking. -/
def matchActionTail (rest : List Char) : Option (List Char × List Char) :=
  let r1 := rest.dropWhile isSpaceChar
  let nm := r1.takeWhile isWordChar
  match nm, r1.dropWhile isWordChar with
  | [], _ => none
  | _, '.' :: r3 =>
    match r3.takeWhile isWordChar, r3.dropWhile isWordChar with
    | [], _ => none
    | nm2, '(' :: r5 => extractArgs (nm ++ '.' :: nm2) r5
    | _, _ => none
  | _, '(' :: r5 => extractArgs nm r5
  | _, _ => none

/-- Model of `response.match(/Action:\s*(\w+(\.\w+)?)\(([^)]*)\)/)`: try every position
of the text from left to right; a position can only start a match when the
literal `Action:` occurs there, and the first position whose whole attempt
succeeds wins. -/
def findAction : List Char → Option (List Char × List Char)
  | [] => none
  | c :: rest =>
    if actionLit.isPrefixOf (c :: rest) then
      match matchActionTail ((c :: rest).drop 7) with
      | some r => some r
      | none => findAction rest
    else findAction rest

/-- Model of `AgentCommunicationProtocol.parseToolCall`: extract a `ToolCall` from
assistant text, or `none` when no `Action:` line matches (the terminal case). -/
def parseToolCall (response : String) : Option ToolCall :=
  match findAction response.data with
  | none => none
  | some (nm, args) => some ⟨⟨nm⟩, paramScan args⟩

/-- Message roles.  `system` appears once at index 0 of a conversation;
`user` entries are the instruction or an Observation wrapper; `assistant`
entries are raw model output. -/
inductive Role where
  | system
  | user
  | assistant
deriving Repr, DecidableEq

/-- One entry of the Conversation State. -/
structure Message where
  role : Role
  content : String
deriving Repr, DecidableEq

/-- The Tool Registry: tool names mapped, in insertion order, to callables.
A tool takes the parsed string parameters and either returns its already
stringified result (`Except.ok`) or throws an error with a message
(`Except.error`), which is how a JavaScript exception is modelled. -/
abbrev Registry := List (String × (List (String × String) → Except String String))

/-- Model of `Array.prototype.join(sep)` on a list of strings. -/
def joinSep (sep : String) : List String → String
  | [] => ""
  | [x] => x
  | x :: xs => x ++ sep ++ joinSep sep xs

/-- Model of `AgentCommunicationProtocol.executeToolCall` for tool names that
behave as map keys: look the tool up by exact name; an unknown name yields the
not-found Observation listing the registered names; a thrown error is caught
and turned into the error Observation; a successful result is returned (tools
hand back their stringified result).  The name-keyed lookup here models an
own-property hit on the registry object; names that instead hit a member
inherited from `Object.prototype` (never a registered tool, yet truthy in the
source's `if (!tool)` guard) are covered by `executeToolCallJS` below. -/
def executeToolCall (registry : Registry) (tc : ToolCall) : String :=
  match registry.lookup tc.toolName with
  | none =>
    "Error: Tool \"" ++ tc.toolName ++ "\" not found. Available tools are: " ++
      joinSep ", " (registry.map Prod.fst)
  | some tool =>
    match tool tc.params with
    | Except.ok result => result
    | Except.error msg => "Error executing tool " ++ tc.toolName ++ ": " ++ msg

/-- Property names every plain object literal inherits from
`Object.prototype`.  The registry built by `initializeToolRegistry` is a
plain object literal, so a lookup `this.toolRegistry[name]` at any of these
names yields a truthy inherited member (for `__proto__`, the accessor yields
the prototype object), and the `if (!tool)` not-found guard in
`executeToolCall` is passed even though the name is not a registered tool. -/
def objectPrototypeMembers : List String :=
  ["constructor", "hasOwnProperty", "isPrototypeOf", "propertyIsEnumerable",
   "toLocaleString", "toString", "valueOf", "__defineGetter__",
   "__defineSetter__", "__lookupGetter__", "__lookupSetter__", "__proto__"]

/-- Model of `JSON.stringify` on the flat string-to-string params object, for
keys and values that need no JSON escaping: keys in insertion order. -/
def jsonStringifyParams (ps : List (String × String)) : String :=
  "\x7b" ++ joinSep "," (ps.map (fun p => "\"" ++ p.1 ++ "\":\"" ++ p.2 ++ "\"")) ++ "\x7d"

/-- Substring test: does `needle` occur contiguously inside `hay`? -/
def occursIn (needle : List Char) : List Char → Bool
  | [] => needle == []
  | c :: rest => needle.isPrefixOf (c :: rest) || occursIn needle rest

/-- Model of `executeToolCall` with the JavaScript property lookup made
faithful: `this.toolRegistry[toolName]` finds an own property first, and
otherwise can still hit a member inherited from `Object.prototype`, which
passes the `if (!tool)` guard.  At the name `constructor` the inherited
member is the `Object` constructor: `Object(params)` returns the `params`
object itself, an object, so the source returns `JSON.stringify(params)` as
the observation.  Invoking one of the other inherited members also never
reaches the not-found branch, but its outcome (a string such as
`"[object Undefined]"` for `toString`, or a caught `TypeError` whose message
text the engine chooses) is engine-specific; `none` records that the model
does not pin it down. -/
def executeToolCallJS (registry : Registry) (tc : ToolCall) : Option String :=
  match registry.lookup tc.toolName with
  | some tool =>
    match tool tc.params with
    | Except.ok result => some result
    | Except.error msg =>
      some ("Error executing tool " ++ tc.toolName ++ ": " ++ msg)
  | none =>
    if tc.toolName == "constructor" then
      some (jsonStringifyParams tc.params)
    else if objectPrototypeMembers.contains tc.toolName then
      none
    else
      some ("Error: Tool \"" ++ tc.toolName ++ "\" not found. Available tools are: " ++
        joinSep ", " (registry.map Prod.fst))

/-- The fixed note appended to the last assistant message when the buffered
loop exhausts its turn budget. -/
def maxTurnsNote : String := "\n\n[Note: Maximum conversation turns reached]"

/-- The fixed fallback string returned when the buffered loop exhausts its
turn budget with no assistant message in the history. -/
def noAnswerFallback : String := "Maximum conversation turns reached without a final answer."

/-- The answer produced by `continueConversation` when the turn budget is
exhausted without a final response: the most recent assistant message with the
exhaustion note appended, or the fixed fallback when there is none. -/
def fallbackAnswer (hist : List Message) : String :=
  match (hist.filter (fun m => m.role == Role.assistant)).getLast? with
  | some m => m.content ++ maxTurnsNote
  | none => noAnswerFallback

/-- Result of a buffered loop run.  `response` and `history` are what the
JavaScript code produces; `turns` counts the model calls made, and `states`
is ghost instrumentation recording the Conversation State after each
completed turn (used only to state invariants). -/
structure LoopResult where
  response : String
  history : List Message
  turns : Nat
  states : List (List Message)
deriving Repr

/-- Model of `AgentCommunicationProtocol.continueConversation`: the buffered
Reason-Act-Observe loop.  `model` is the deterministic completion stub (the
full prompt context in, the assistant text out); `fuel` is the number of
turns still allowed (`maxTurns - turns` in the JavaScript `while` loop, so
the loop makes at most `fuel` model calls).  A turn appends the assistant
text, and then either dispatches the parsed ToolCall and appends the
Observation as a `user` message, or terminates with the assistant text as the
final response.  At `fuel = 0` the loop returns the fallback answer. -/
def runLoop (model : List Message → String) (registry : Registry) :
    List Message → Nat → LoopResult
  | hist, 0 => ⟨fallbackAnswer hist, hist, 0, []⟩
  | hist, fuel + 1 =>
    let resp := model hist
    let h1 := hist ++ [⟨Role.assistant, resp⟩]
    match parseToolCall resp with
    | some tc =>
      let obs := executeToolCall registry tc
      let h2 := h1 ++ [⟨Role.user, "Observation: " ++ obs⟩]
      let r := runLoop model registry h2 fuel
      ⟨r.response, r.history, r.turns + 1, h2 :: r.states⟩
    | none => ⟨resp, h1, 1, [h1]⟩

/-- The default `maxTurns` of `continueConversation`, also the hard-coded
turn bound of `processInstructionStream`. -/
def defaultMaxTurns : Nat := 15

/-- The initial Conversation State seeded by `processUserInstruction` and
`processInstructionStream`: the system prompt then the user instruction.
The system prompt text itself is derived from the registry's tool names and
documentation; its content never matters to the orchestration logic, so it is
passed in as `sysPrompt`. -/
def initialHistory (sysPrompt instruction : String) : List Message :=
  [⟨Role.system, sysPrompt⟩, ⟨Role.user, instruction⟩]

/-- Model of `AgentCommunicationProtocol.processUserInstruction` with a valid (non-empty)
instruction: reset the Conversation State to system prompt plus instruction,
then run the buffered loop with the default turn budget. -/
def processUserInstruction (model : List Message → String) (registry : Registry)
    (sysPrompt instruction : String) : LoopResult :=
  runLoop model registry (initialHistory sysPrompt instruction) defaultMaxTurns

/-- The stream events of `processInstructionStream` (the `session` event is
produced one level up, by the facade). -/
inductive StreamEvent where
  | session (sessionId : String)
  | assistant (content : String)
  | toolCall (tool : String) (params : List (String × String))
  | observation (content : String)
  | complete (content : String)
  | error (content : String)
deriving Repr, DecidableEq

/-- Result of the streaming loop: the emitted events, the final Conversation
State, the number of model-streaming turns executed, and (ghost) the state
after each completed turn. -/
structure StreamResult where
  events : List StreamEvent
  history : List Message
  turns : Nat
  states : List (List Message)
deriving Repr

/-- The `assistant` events emitted while streaming one model response:
one event per chunk whose content is non-empty (the JavaScript code skips
falsy `delta.content`), concatenating to the full assistant text. -/
def chunkEvents (chunks : List String) : List StreamEvent :=
  (chunks.filter (fun c => !(c == ""))).map StreamEvent.assistant

/-- The `while (turns < maxTurns)` body of
`AgentCommunicationProtocol.processInstructionStream`.  `smodel` is the
deterministic streaming completion stub (prompt context in, response chunks
out).  Each turn streams the assistant chunks, appends the concatenated
assistant text, and then either emits `toolCall`, executes the tool (whose
failures `executeToolCall` already absorbs into the Observation string),
appends and emits the `observation`, and loops — or emits `complete` and
stops.  `turns` counts executed iterations so that the caller can apply the
trailing `turns >= maxTurns` check of the JavaScript code. -/
def streamLoop (smodel : List Message → List String) (registry : Registry) :
    List Message → Nat → StreamResult
  | hist, 0 => ⟨[], hist, 0, []⟩
  | hist, fuel + 1 =>
    let chunks := smodel hist
    let resp := String.join chunks
    let h1 := hist ++ [⟨Role.assistant, resp⟩]
    match parseToolCall resp with
    | some tc =>
      let obs := executeToolCall registry tc
      let h2 := h1 ++ [⟨Role.user, "Observation: " ++ obs⟩]
      let r := streamLoop smodel registry h2 fuel
      ⟨chunkEvents chunks ++
         StreamEvent.toolCall tc.toolName tc.params :: StreamEvent.observation obs :: r.events,
       r.history, r.turns + 1, h2 :: r.states⟩
    | none =>
      ⟨chunkEvents chunks ++ [StreamEvent.complete resp], h1, 1, [h1]⟩

/-- The terminal error content emitted when the streaming loop's turn counter
reaches the maximum. -/
def maxTurnsError : String := "Maximum conversation turns reached."

/-- Model of `AgentCommunicationProtocol.processInstructionStream` with a valid
(non-empty) instruction: reset the Conversation State, run the streaming loop
with the hard-coded `maxTurns = 15`, then apply the trailing
`if (turns >= maxTurns) yield error` check of the JavaScript code. -/
def processInstructionStreamACP (smodel : List Message → List String)
    (registry : Registry) (sysPrompt instruction : String) : StreamResult :=
  let r := streamLoop smodel registry (initialHistory sysPrompt instruction) defaultMaxTurns
  if defaultMaxTurns ≤ r.turns then
    ⟨r.events ++ [StreamEvent.error maxTurnsError], r.history, r.turns, r.states⟩
  else r

/-- The session store of `AgentService`: session ids mapped, in insertion
order, to the session's agent state.  The only mutable state an
`AgentCommunicationProtocol` instance carries besides its fixed id is its
`messageHistory`, so a stored agent is represented by that history. -/
abbrev SessionStore := List (String × List Message)

/-- Model of `Map.prototype.set`: replace the value of an existing key in place, or
append a new binding. -/
def storeSet (store : SessionStore) (sid : String) (hist : List Message) : SessionStore :=
  match store with
  | [] => [(sid, hist)]
  | (k, v) :: rest =>
    if k == sid then (k, hist) :: rest else (k, v) :: storeSet rest sid hist

/-- Model of the JavaScript falsy test `!instruction`: the instruction is absent, or the empty string (the only
falsy string). -/
def invalidInstruction : Option String → Bool
  | none => true
  | some s => s == ""

/-- The error message thrown by `AgentService` for a missing or empty
instruction (the `InvalidInput` condition). -/
def invalidInputError : String := "Instruction is required"

/-- Model of `AgentService.processInstruction`: validate the instruction, then resolve
the session (reuse the stored agent when the caller-supplied id is present in
the store, otherwise create a fresh agent under `freshId`), run the agent's
`processUserInstruction`, and store the agent's final history.  The returned
payload is the `{sessionId, response}` pair.  A thrown error is modelled by
`Except.error`; the store is returned alongside so that the state after a
failed call is visible (the JavaScript code throws before touching the
store). -/
def serviceProcessInstruction (model : List Message → String) (registry : Registry)
    (sysPrompt freshId : String) (store : SessionStore)
    (sessionId : Option String) (instruction : Option String) :
    Except String (String × String) × SessionStore :=
  if invalidInstruction instruction then
    (Except.error invalidInputError, store)
  else
    let instr := instruction.getD ""
    let sid :=
      match sessionId with
      | some s => if (store.lookup s).isSome then s else freshId
      | none => freshId
    let r := processUserInstruction model registry sysPrompt instr
    (Except.ok (sid, r.response), storeSet store sid r.history)

/-- Model of `AgentService.processInstructionStream`: same session resolution as the
buffered operation; when a new session is created its id is emitted first as
a `session` event, then the agent's stream events follow. -/
def serviceProcessInstructionStream (smodel : List Message → List String)
    (registry : Registry) (sysPrompt freshId : String) (store : SessionStore)
    (sessionId : Option String) (instruction : Option String) :
    Except String (List StreamEvent) × SessionStore :=
  if invalidInstruction instruction then
    (Except.error invalidInputError, store)
  else
    let instr := instruction.getD ""
    let (sid, isNew) :=
      match sessionId with
      | some s => if (store.lookup s).isSome then (s, false) else (freshId, true)
      | none => (freshId, true)
    let r := processInstructionStreamACP smodel registry sysPrompt instr
    ((Except.ok ((if isNew then [StreamEvent.session sid] else []) ++ r.events)),
     storeSet store sid r.history)

/-- Escape a parameter value for rendering inside a `key="value"` pair:
each `"` becomes `\"` (the surface form the Action grammar expects). -/
def escapeVal : List Char → List Char
  | [] => []
  | '"' :: rest => '\\' :: '"' :: escapeVal rest
  | c :: rest => c :: escapeVal rest

/-- A well-formed parameter key: a non-empty `\w+` identifier. -/
def validKey (k : String) : Bool :=
  !(k.data == []) && k.data.all isWordChar

/-- A well-formed parameter value for the Action grammar: any characters
except a backslash (the grammar's only escape is `\"`, applied by
`escapeVal`) and except a closing parenthesis (which would end the
argument capture early). -/
def validValue (v : String) : Bool :=
  v.data.all (fun c => !(c == '\\') && !(c == ')'))

/-- A well-formed tool name: `\w+` optionally followed by `.` and another
`\w+` (the namespace-dotted form). -/
def validToolName (s : String) : Bool :=
  let p1 := s.data.takeWhile isWordChar
  let r := s.data.dropWhile isWordChar
  !(p1 == []) &&
    (match r with
     | [] => true
     | '.' :: r2 => !(r2 == []) && r2.all isWordChar
     | _ => false)

/-- Render one `key="value"` pair. -/
def renderPair (p : String × String) : List Char :=
  p.1.data ++ '=' :: '"' :: (escapeVal p.2.data ++ ['"'])

/-- Render a parameter list as the comma-separated argument text of an
Action line. -/
def renderArgs : List (String × String) → List Char
  | [] => []
  | [p] => renderPair p
  | p :: ps => renderPair p ++ ',' :: ' ' :: renderArgs ps

/-- Render a complete well-formed Action occurrence
`Action: name(k1="v1", ..., kn="vn")` followed by arbitrary trailing text. -/
def renderAction (name : String) (ps : List (String × String)) (post : List Char) :
    List Char :=
  actionLit ++ ' ' :: (name.data ++ '(' :: (renderArgs ps ++ ')' :: post))

/-- The Conversation State invariant on roles: the `system` message sits at
index 0 and occurs exactly once. -/
def sysOnceAtHead (hist : List Message) : Prop :=
  (hist.head?.map Message.role = some Role.system) ∧
    (hist.filter (fun m => m.role == Role.system)).length = 1

/-- The Conversation State invariant on turn boundaries: the history ends
either in an assistant message from which the Action Parser extracts no
ToolCall, or in a user Observation message. -/
def endsOk (hist : List Message) : Prop :=
  (∃ m, hist.getLast? = some m ∧ m.role = Role.assistant ∧ parseToolCall m.content = none) ∨
    (∃ m, hist.getLast? = some m ∧ m.role = Role.user ∧
      ∃ r, m.content = "Observation: " ++ r)

/-- Structural check of a stream-event sequence: every `toolCall` event is
immediately followed by exactly one `observation` event carrying the settled
result of executing that very tool call against the registry, and
`observation` events occur nowhere else. -/
def toolPairsOk (registry : Registry) : List StreamEvent → Bool
  | [] => true
  | StreamEvent.toolCall n p :: StreamEvent.observation o :: rest =>
    (o == executeToolCall registry ⟨n, p⟩) && toolPairsOk registry rest
  | StreamEvent.toolCall _ _ :: _ => false
  | StreamEvent.observation _ :: _ => false
  | _ :: rest => toolPairsOk registry rest

/-- Recognise terminal events (`complete` or `error`). -/
def isTerminalEvent : StreamEvent → Bool
  | StreamEvent.complete _ => true
  | StreamEvent.error _ => true
  | _ => false

/-- Recognise `error` events. -/
def isErrorEvent : StreamEvent → Bool
  | StreamEvent.error _ => true
  | _ => false

/-- Recognise `complete` events. -/
def isCompleteEvent : StreamEvent → Bool
  | StreamEvent.complete _ => true
  | _ => false

/-- Recognise `assistant` events. -/
def isAssistantEvent : StreamEvent → Bool
  | StreamEvent.assistant _ => true
  | _ => false

/-- A one-tool registry used as a concrete stub in witnesses: the tool `t`
always succeeds with result `ok`. -/
def demoRegistry : Registry := [("t", fun _ => Except.ok "ok")]

/-- A registry whose only tool `bad` always throws with message `boom`. -/
def failRegistry : Registry := [("bad", fun _ => Except.error "boom")]

/-- A model stub that answers immediately with no Action line. -/
def answerModel : List Message → String := fun _ => "done"

/-- A streaming model stub that requests tool `t` until the Conversation
State has reached 30 messages (which happens exactly when the 15th turn
begins) and only then answers: the `complete` event lands on the final
allowed turn. -/
def lastTurnStub : List Message → List String := fun hist =>
  if 30 ≤ hist.length then ["Done"] else ["Action: t(k=\"v\")"]

/-- A streaming model stub that requests tool `t` on the first turn and
answers in two chunks on the second. -/
def twoTurnStub : List Message → List String := fun hist =>
  if 4 ≤ hist.length then ["An", "swer"] else ["Action: t(k=\"v\")"]

theorem joinSep_split (sep t : String) :
    ∀ l : List String, t ∈ l → ∃ x y, (joinSep sep l).data = x ++ t.data ++ y
  | [], ht => absurd ht (by simp)
  | [z], ht => by
    have hz : t = z := by simpa using ht
    exact ⟨[], [], by simp [joinSep, ← hz]⟩
  | z :: w :: ws, ht => by
    rcases List.mem_cons.mp ht with hz | hm
    · exact ⟨[], (sep ++ joinSep sep (w :: ws)).data, by simp [joinSep, String.data_append, hz]⟩
    · obtain ⟨x, y, hxy⟩ := joinSep_split sep t (w :: ws) hm
      exact ⟨(z ++ sep).data ++ x, y, by simp [joinSep, String.data_append, hxy]⟩

/-- Claim C7: when the registered tool itself throws an error with message
`m`, `executeToolCall` catches it and returns the Observation
`"Error executing tool <name>: <m>"` instead of propagating the failure, and
the buffered loop appends that Observation as a user message and continues
with the next turn instead of aborting. -/
theorem C7 (registry : Registry) (tc : ToolCall) (model : List Message → String)
    (hist : List Message) (fuel : Nat)
    (tool : List (String × String) → Except String String) (m : String)
    (hlookup : registry.lookup tc.toolName = some tool)
    (hthrow : tool tc.params = Except.error m) :
    executeToolCall registry tc = "Error executing tool " ++ tc.toolName ++ ": " ++ m ∧
    (parseToolCall (model hist) = some tc →
      runLoop model registry hist (fuel + 1) =
        ⟨(runLoop model registry
            ((hist ++ [⟨Role.assistant, model hist⟩]) ++
              [⟨Role.user, "Observation: " ++ executeToolCall registry tc⟩]) fuel).response,
         (runLoop model registry
            ((hist ++ [⟨Role.assistant, model hist⟩]) ++
              [⟨Role.user, "Observation: " ++ executeToolCall registry tc⟩]) fuel).history,
         (runLoop model registry
            ((hist ++ [⟨Role.assistant, model hist⟩]) ++
              [⟨Role.user, "Observation: " ++ executeToolCall registry tc⟩]) fuel).turns + 1,
         ((hist ++ [⟨Role.assistant, model hist⟩]) ++
            [⟨Role.user, "Observation: " ++ executeToolCall registry tc⟩]) ::
           (runLoop model registry
             ((hist ++ [⟨Role.assistant, model hist⟩]) ++
               [⟨Role.user, "Observation: " ++ executeToolCall registry tc⟩]) fuel).states⟩) := by
  constructor
  · simp [executeToolCall, hlookup, hthrow]
  · intro hp
    simp only [runLoop, hp]

/-- Claim C7 witness. -/
theorem C7_witness :
    List.lookup ("bad" : String) failRegistry = some (fun _ => Except.error "boom") ∧
    executeToolCall failRegistry ⟨"bad", []⟩ =
      "Error executing tool " ++ "bad" ++ ": " ++ "boom" :=
  ⟨rfl, (C7 failRegistry ⟨"bad", []⟩ (fun _ => "x") [] 0
    (fun _ => Except.error "boom") "boom" rfl rfl).1⟩

/-- Claim C8: for an absent or empty instruction, both facade operations fail
with the `InvalidInput` error before the agent loop starts: the call returns
the error, the session store is unchanged (no session is created), and in
streaming mode no StreamEvent is produced. -/
theorem C8 (model : List Message → String) (smodel : List Message → List String)
    (registry : Registry) (sysPrompt freshId : String) (store : SessionStore)
    (sessionId : Option String) (instruction : Option String)
    (hinv : invalidInstruction instruction = true) :
    serviceProcessInstruction model registry sysPrompt freshId store sessionId instruction =
      (Except.error invalidInputError, store) ∧
    serviceProcessInstructionStream smodel registry sysPrompt freshId store sessionId
        instruction =
      (Except.error invalidInputError, store) := by
  constructor
  · simp [serviceProcessInstruction, hinv]
  · simp [serviceProcessInstructionStream, hinv]

/-- Claim C8 witness: the empty instruction on a store holding one session. -/
theorem C8_witness :
    invalidInstruction (some "") = true ∧
    serviceProcessInstruction answerModel demoRegistry "S" "s2" [("s1", [])]
        none (some "") = (Except.error invalidInputError, [("s1", [])]) ∧
    serviceProcessInstructionStream lastTurnStub demoRegistry "S" "s2" [("s1", [])]
        none (some "") = (Except.error invalidInputError, [("s1", [])]) := by
  refine ⟨by decide, ?_⟩
  exact C8 answerModel lastTurnStub demoRegistry "S" "s2" [("s1", [])] none (some "")
    (by decide)

theorem sysOnce_append (hist : List Message) (ms : List Message)
    (h : sysOnceAtHead hist) (hm : ∀ m ∈ ms, m.role ≠ Role.system) :
    sysOnceAtHead (hist ++ ms) := by
  obtain ⟨hhead, hcount⟩ := h
  constructor
  · cases hist with
    | nil => simp at hhead
    | cons x xs => simpa using hhead
  · rw [List.filter_append, List.length_append, hcount]
    have : ms.filter (fun m => m.role == Role.system) = [] := by
      rw [List.filter_eq_nil]
      intro m hmem
      simpa using hm m hmem
    simp [this]

theorem runLoop_states_inv (model : List Message → String) (registry : Registry) :
    ∀ (fuel : Nat) (hist : List Message), sysOnceAtHead hist →
      ∀ s ∈ (runLoop model registry hist fuel).states, sysOnceAtHead s ∧ endsOk s
  | 0, hist, _, s, hs => by simp [runLoop] at hs
  | fuel + 1, hist, hinv, s, hs => by
    cases hp : parseToolCall (model hist) with
    | none =>
      simp only [runLoop, hp] at hs
      simp at hs
      subst hs
      refine ⟨sysOnce_append hist _ hinv (by simp), Or.inl ?_⟩
      exact ⟨⟨Role.assistant, model hist⟩, List.getLast?_concat _, rfl, hp⟩
    | some tc =>
      simp only [runLoop, hp] at hs
      simp at hs
      have hinv2 : sysOnceAtHead (hist ++
          [⟨Role.assistant, model hist⟩,
           ⟨Role.user, "Observation: " ++ executeToolCall registry tc⟩]) := by
        refine sysOnce_append hist _ hinv ?_
        intro m hm
        rcases List.mem_cons.mp hm with rfl | hm
        · simp
        · rcases List.mem_cons.mp hm with rfl | hm
          · simp
          · cases hm
      rcases hs with hs | hs
      · subst hs
        refine ⟨hinv2, Or.inr ?_⟩
        refine ⟨⟨Role.user, "Observation: " ++ executeToolCall registry tc⟩, ?_, rfl,
          executeToolCall registry tc, rfl⟩
        rw [show hist ++ [(⟨Role.assistant, model hist⟩ : Message),
              ⟨Role.user, "Observation: " ++ executeToolCall registry tc⟩] =
            (hist ++ [⟨Role.assistant, model hist⟩]) ++
              [⟨Role.user, "Observation: " ++ executeToolCall registry tc⟩] by simp]
        exact List.getLast?_concat _
      · exact runLoop_states_inv model registry fuel _ hinv2 s hs

theorem streamLoop_states_inv (smodel : List Message → List String) (registry : Registry) :
    ∀ (fuel : Nat) (hist : List Message), sysOnceAtHead hist →
      ∀ s ∈ (streamLoop smodel registry hist fuel).states, sysOnceAtHead s ∧ endsOk s
  | 0, hist, _, s, hs => by simp [streamLoop] at hs
  | fuel + 1, hist, hinv, s, hs => by
    cases hp : parseToolCall (String.join (smodel hist)) with
    | none =>
      simp only [streamLoop, hp] at hs
      simp at hs
      subst hs
      refine ⟨sysOnce_append hist _ hinv (by simp), Or.inl ?_⟩
      exact ⟨⟨Role.assistant, String.join (smodel hist)⟩, List.getLast?_concat _, rfl, hp⟩
    | some tc =>
      simp only [streamLoop, hp] at hs
      simp at hs
      have hinv2 : sysOnceAtHead (hist ++
          [⟨Role.assistant, String.join (smodel hist)⟩,
           ⟨Role.user, "Observation: " ++ executeToolCall registry tc⟩]) := by
        refine sysOnce_append hist _ hinv ?_
        intro m hm
        rcases List.mem_cons.mp hm with rfl | hm
        · simp
        · rcases List.mem_cons.mp hm with rfl | hm
          · simp
          · cases hm
      rcases hs with hs | hs
      · subst hs
        refine ⟨hinv2, Or.inr ?_⟩
        refine ⟨⟨Role.user, "Observation: " ++ executeToolCall registry tc⟩, ?_, rfl,
          executeToolCall registry tc, rfl⟩
        rw [show hist ++ [(⟨Role.assistant, String.join (smodel hist)⟩ : Message),
              ⟨Role.user, "Observation: " ++ executeToolCall registry tc⟩] =
            (hist ++ [⟨Role.assistant, String.join (smodel hist)⟩]) ++
              [⟨Role.user, "Observation: " ++ executeToolCall registry tc⟩] by simp]
        exact List.getLast?_concat _
      · exact streamLoop_states_inv smodel registry fuel _ hinv2 s hs

theorem initialHistory_sysOnce (sysPrompt instruction : String) :
    sysOnceAtHead (initialHistory sysPrompt instruction) := by
  constructor
  · rfl
  · rfl

theorem acpStream_states (smodel : List Message → List String) (registry : Registry)
    (sysPrompt instruction : String) :
    (processInstructionStreamACP smodel registry sysPrompt instruction).states =
      (streamLoop smodel registry (initialHistory sysPrompt instruction)
        defaultMaxTurns).states := by
  unfold processInstructionStreamACP
  simp only []
  split <;> rfl

/-- Claim C9: in either loop mode, the Conversation State after every
completed turn has the `system` message exactly once at index 0, and ends
either in an assistant message from which the Action Parser extracts no
ToolCall (the terminal case) or in a user message prefixed `"Observation: "`
awaiting the next turn. -/
theorem C9 (model : List Message → String) (smodel : List Message → List String)
    (registry : Registry) (sysPrompt instruction : String) :
    (∀ s ∈ (processUserInstruction model registry sysPrompt instruction).states,
      sysOnceAtHead s ∧ endsOk s) ∧
    (∀ s ∈ (processInstructionStreamACP smodel registry sysPrompt instruction).states,
      sysOnceAtHead s ∧ endsOk s) := by
  constructor
  · intro s hs
    exact runLoop_states_inv model registry defaultMaxTurns _
      (initialHistory_sysOnce sysPrompt instruction) s hs
  · intro s hs
    rw [acpStream_states] at hs
    exact streamLoop_states_inv smodel registry defaultMaxTurns _
      (initialHistory_sysOnce sysPrompt instruction) s hs

/-- Claim C9 witness: the state after the single turn of a run whose model
answers immediately. -/
theorem C9_witness :
    sysOnceAtHead [⟨Role.system, "S"⟩, ⟨Role.user, "go"⟩, ⟨Role.assistant, "done"⟩] ∧
    endsOk [⟨Role.system, "S"⟩, ⟨Role.user, "go"⟩, ⟨Role.assistant, "done"⟩] :=
  (C9 answerModel twoTurnStub demoRegistry "S" "go").1
    [⟨Role.system, "S"⟩, ⟨Role.user, "go"⟩, ⟨Role.assistant, "done"⟩] (by decide)

theorem toolPairsOk_append (registry : Registry) (l m : List StreamEvent)
    (h : toolPairsOk registry l = true) :
    toolPairsOk registry (l ++ m) = toolPairsOk registry m := by
  induction l using toolPairsOk.induct registry with
  | case1 => simp
  | case2 n p o rest ih =>
    simp only [toolPairsOk, Bool.and_eq_true] at h
    simp only [List.cons_append, toolPairsOk, h.1, Bool.true_and]
    exact ih h.2
  | case3 tool params tail hno =>
    exfalso
    cases tail with
    | nil => simp [toolPairsOk] at h
    | cons e t =>
      cases e <;> first
        | exact hno _ _ rfl
        | simp [toolPairsOk] at h
  | case4 content tail => simp [toolPairsOk] at h
  | case5 head rest h1 h2 h3 ih =>
    cases head <;> first
      | exact absurd rfl (h2 _ _)
      | exact absurd rfl (h3 _)
      | (simp only [List.cons_append, toolPairsOk] at h ⊢
         exact ih h)

theorem chunkEvents_assistant (chunks : List String) :
    ∀ e ∈ chunkEvents chunks, isAssistantEvent e = true := by
  intro e he
  simp only [chunkEvents, List.mem_map] at he
  obtain ⟨c, -, rfl⟩ := he
  rfl

theorem assistantPrefix_toolPairs (registry : Registry) (l m : List StreamEvent)
    (h : ∀ e ∈ l, isAssistantEvent e = true) :
    toolPairsOk registry (l ++ m) = toolPairsOk registry m := by
  induction l with
  | nil => simp
  | cons e l ih =>
    have he := h e (by simp)
    cases e <;> simp [isAssistantEvent] at he
    simp only [List.cons_append, toolPairsOk]
    exact ih (fun x hx => h x (by simp [hx]))

theorem streamLoop_toolPairs (smodel : List Message → List String) (registry : Registry) :
    ∀ (fuel : Nat) (hist : List Message),
      toolPairsOk registry (streamLoop smodel registry hist fuel).events = true
  | 0, _ => rfl
  | fuel + 1, hist => by
    cases hp : parseToolCall (String.join (smodel hist)) with
    | none =>
      simp only [streamLoop, hp]
      rw [assistantPrefix_toolPairs registry _ _ (chunkEvents_assistant _)]
      rfl
    | some tc =>
      simp only [streamLoop, hp]
      rw [assistantPrefix_toolPairs registry _ _ (chunkEvents_assistant _)]
      simp only [toolPairsOk]
      have : (executeToolCall registry tc ==
          executeToolCall registry ⟨tc.toolName, tc.params⟩) = true := by
        simp
      rw [this, Bool.true_and]
      exact streamLoop_toolPairs smodel registry fuel _

theorem streamLoop_no_error (smodel : List Message → List String) (registry : Registry) :
    ∀ (fuel : Nat) (hist : List Message),
      ∀ e ∈ (streamLoop smodel registry hist fuel).events, isErrorEvent e = false
  | 0, _, e, he => by simp [streamLoop] at he
  | fuel + 1, hist, e, he => by
    cases hp : parseToolCall (String.join (smodel hist)) with
    | none =>
      simp only [streamLoop, hp] at he
      rcases List.mem_append.mp he with hc | hc
      · have := chunkEvents_assistant _ e hc
        cases e <;> simp_all [isAssistantEvent, isErrorEvent]
      · simp at hc
        subst hc
        rfl
    | some tc =>
      simp only [streamLoop, hp] at he
      rcases List.mem_append.mp he with hc | hc
      · have := chunkEvents_assistant _ e hc
        cases e <;> simp_all [isAssistantEvent, isErrorEvent]
      · rcases List.mem_cons.mp hc with rfl | hc
        · rfl
        · rcases List.mem_cons.mp hc with rfl | hc
          · rfl
          · exact streamLoop_no_error smodel registry fuel _ e hc

/-- Claim C10: in streaming mode every `toolCall` event is immediately
followed by exactly one `observation` event carrying the settled result of
that tool call (success or recovered failure) — so a tool-level fault never
produces an `error` event — and the only `error` event the loop can emit is
the budget-exhaustion one (provider-level faults are exceptions, not
events). -/
theorem C10 (smodel : List Message → List String) (registry : Registry)
    (sysPrompt instruction : String) :
    toolPairsOk registry
      (processInstructionStreamACP smodel registry sysPrompt instruction).events = true ∧
    (∀ e ∈ (processInstructionStreamACP smodel registry sysPrompt instruction).events,
      isErrorEvent e = true → e = StreamEvent.error maxTurnsError) := by
  unfold processInstructionStreamACP
  simp only []
  split
  · constructor
    · rw [toolPairsOk_append registry _ _ (streamLoop_toolPairs smodel registry _ _)]
      rfl
    · intro e he herr
      rcases List.mem_append.mp he with hc | hc
      · exact absurd herr (by simp [streamLoop_no_error smodel registry _ _ e hc])
      · simpa using hc
  · constructor
    · exact streamLoop_toolPairs smodel registry _ _
    · intro e he herr
      exact absurd herr (by simp [streamLoop_no_error smodel registry _ _ e he])

/-- Claim C10 witness: a run that exhausts its budget, evaluated concretely. -/
theorem C10_witness :
    toolPairsOk demoRegistry
      (processInstructionStreamACP lastTurnStub demoRegistry "S" "go").events = true ∧
    StreamEvent.error maxTurnsError = StreamEvent.error maxTurnsError :=
  ⟨(C10 lastTurnStub demoRegistry "S" "go").1,
   (C10 lastTurnStub demoRegistry "S" "go").2 (StreamEvent.error maxTurnsError)
     (by decide) rfl⟩

/-- Claim C1, evaluated at its failing input: issuing a second instruction
with the previously returned session id does not append to the session's
Conversation State — `processUserInstruction` reassigns `messageHistory`, so
the stored history after the second call has the same length as after the
first, and the first instruction's user message is gone. -/
theorem C1 :
    serviceProcessInstruction answerModel demoRegistry "S" "s1" [] none (some "first") =
      (Except.ok ("s1", "done"),
       [("s1", [⟨Role.system, "S"⟩, ⟨Role.user, "first"⟩, ⟨Role.assistant, "done"⟩])]) ∧
    serviceProcessInstruction answerModel demoRegistry "S" "s2"
        [("s1", [⟨Role.system, "S"⟩, ⟨Role.user, "first"⟩, ⟨Role.assistant, "done"⟩])]
        (some "s1") (some "second") =
      (Except.ok ("s1", "done"),
       [("s1", [⟨Role.system, "S"⟩, ⟨Role.user, "second"⟩, ⟨Role.assistant, "done"⟩])]) ∧
    ¬ ([(⟨Role.system, "S"⟩ : Message), ⟨Role.user, "first"⟩,
         ⟨Role.assistant, "done"⟩].length <
       [(⟨Role.system, "S"⟩ : Message), ⟨Role.user, "second"⟩,
         ⟨Role.assistant, "done"⟩].length) ∧
    (⟨Role.user, "first"⟩ : Message) ∉
      [(⟨Role.system, "S"⟩ : Message), ⟨Role.user, "second"⟩, ⟨Role.assistant, "done"⟩] := by
  refine ⟨rfl, rfl, by decide, by decide⟩

/-- Claim C2, evaluated at its failing input: a deterministic streaming stub
that answers exactly on the 15th (final) turn makes
`processInstructionStream` emit two terminal events for one instruction —
one `complete` and, because the trailing `turns >= maxTurns` check also
fires, one `error`. -/
theorem C2 :
    ((processInstructionStreamACP lastTurnStub demoRegistry "S" "go").events.filter
      isCompleteEvent).length = 1 ∧
    ((processInstructionStreamACP lastTurnStub demoRegistry "S" "go").events.filter
      isErrorEvent).length = 1 ∧
    ((processInstructionStreamACP lastTurnStub demoRegistry "S" "go").events.filter
      isTerminalEvent).length = 2 := by
  refine ⟨by decide, by decide, by decide⟩

theorem takeWhile_append_not (p : Char → Bool) (l : List Char) (y : Char) (t : List Char)
    (hl : ∀ a ∈ l, p a = true) (hy : p y = false) :
    (l ++ y :: t).takeWhile p = l := by
  induction l with
  | nil => simp [List.takeWhile_cons, hy]
  | cons x xs ih =>
    have hx := hl x (by simp)
    simp only [List.cons_append, List.takeWhile_cons, hx]
    simp [ih (fun a ha => hl a (by simp [ha]))]

theorem dropWhile_append_not (p : Char → Bool) (l : List Char) (y : Char) (t : List Char)
    (hl : ∀ a ∈ l, p a = true) (hy : p y = false) :
    (l ++ y :: t).dropWhile p = y :: t := by
  induction l with
  | nil => simp [List.dropWhile_cons, hy]
  | cons x xs ih =>
    have hx := hl x (by simp)
    simp only [List.cons_append, List.dropWhile_cons, hx]
    simp [ih (fun a ha => hl a (by simp [ha]))]

theorem word_not_space (c : Char) (h : isWordChar c = true) : isSpaceChar c = false := by
  by_contra hs
  rw [Bool.not_eq_false] at hs
  have hmem : c ∈ jsWhitespace := by
    rw [isSpaceChar] at hs
    exact List.mem_of_elem_eq_true hs
  fin_cases hmem <;> revert h <;> decide

theorem escapeVal_cons_ne (c : Char) (l : List Char) (hc : c ≠ '"') :
    escapeVal (c :: l) = c :: escapeVal l := by
  rw [escapeVal.eq_def]
  split
  · rename_i heq
    cases heq
  · rename_i heq
    injection heq with h1 h2
    exact absurd h1 hc
  · rename_i heq
    injection heq with h1 h2
    subst h1
    subst h2
    rfl

theorem unescapeQuotes_cons_ne (c : Char) (l : List Char) (hc : c ≠ '\\') :
    unescapeQuotes (c :: l) = c :: unescapeQuotes l := by
  rw [unescapeQuotes.eq_def]
  split
  · rename_i heq
    injection heq with h1 h2
    exact absurd h1 hc
  · rename_i heq
    injection heq with h1 h2
    subst h1
    subst h2
    rfl
  · rename_i heq
    cases heq

theorem unescape_escapeVal (v : List Char) (hv : ∀ c ∈ v, c ≠ '\\') :
    unescapeQuotes (escapeVal v) = v := by
  induction v with
  | nil => rfl
  | cons c v ih =>
    have ihv := ih (fun a ha => hv a (by simp [ha]))
    by_cases hq : c = '"'
    · subst hq
      have h1 : escapeVal ('"' :: v) = '\\' :: '"' :: escapeVal v := rfl
      have h2 : unescapeQuotes ('\\' :: '"' :: escapeVal v) =
          '"' :: unescapeQuotes (escapeVal v) := rfl
      rw [h1, h2, ihv]
    · rw [escapeVal_cons_ne c v hq,
        unescapeQuotes_cons_ne c _ (hv c (by simp)), ihv]

theorem scanValue_render (v : List Char) (rest : List Char)
    (hv : ∀ c ∈ v, c ≠ '\\') :
    (scanValue (escapeVal v ++ '"' :: rest)).map (fun p => (p.1, p.2.1)) =
      some (escapeVal v, rest) := by
  induction v with
  | nil =>
    have h1 : escapeVal ([] : List Char) ++ '"' :: rest = '"' :: rest := rfl
    rw [h1, scanValue.eq_def]
    simp only [show (('"' : Char) == '"') = true from rfl, if_true]
    rfl
  | cons c v ih =>
    have ihv := ih (fun a ha => hv a (by simp [ha]))
    rcases hsv : scanValue (escapeVal v ++ '"' :: rest) with - | ⟨v0, r0⟩
    · rw [hsv] at ihv
      simp [Option.map] at ihv
    · rw [hsv] at ihv
      have hpair : (v0, r0.1) = (escapeVal v, rest) := by
        simpa [Option.map_some'] using ihv
      have hv0 : v0 = escapeVal v := congrArg Prod.fst hpair
      have hr0 : r0.1 = rest := congrArg Prod.snd hpair
      by_cases hq : c = '"'
      · subst hq
        have h1 : escapeVal ('"' :: v) ++ '"' :: rest =
            '\\' :: '"' :: (escapeVal v ++ '"' :: rest) := rfl
        rw [h1, scanValue.eq_def]
        simp only [show (('\\' : Char) == '"') = false from rfl,
          show (('\\' : Char) == '\\') = true from rfl,
          show isLineTerm '"' = false from rfl, Bool.false_eq_true, if_false, if_true]
        rw [hsv]
        simp only [Option.map_some']
        rw [hv0, hr0]
        rfl
      · have hcb : c ≠ '\\' := hv c (by simp)
        have h1 : escapeVal (c :: v) ++ '"' :: rest =
            c :: (escapeVal v ++ '"' :: rest) := by
          rw [escapeVal_cons_ne c v hq]
          rfl
        rw [h1, scanValue.eq_def]
        have hb1 : (c == '"') = false := by
          simp [hq]
        have hb2 : (c == '\\') = false := by
          simp [hcb]
        simp only [hb1, hb2, Bool.false_eq_true, if_false]
        rw [hsv]
        simp [hv0, hr0, escapeVal_cons_ne c v hq]

theorem validKey_all (k : String) (hk : validKey k = true) :
    k.data ≠ [] ∧ ∀ c ∈ k.data, isWordChar c = true := by
  rw [validKey, Bool.and_eq_true] at hk
  refine ⟨by simpa using hk.1, ?_⟩
  intro c hc
  exact List.all_eq_true.mp hk.2 c hc

theorem validValue_all (v : String) (hv : validValue v = true) :
    ∀ c ∈ v.data, c ≠ '\\' ∧ c ≠ ')' := by
  intro c hc
  rw [validValue] at hv
  have := List.all_eq_true.mp hv c hc
  rw [Bool.and_eq_true] at this
  constructor
  · simpa using this.1
  · simpa using this.2

theorem paramScan_pair (k v : String) (rest : List Char)
    (hk : validKey k = true) (hv : validValue v = true) :
    paramScan (renderPair (k, v) ++ rest) = (k, v) :: paramScan rest := by
  obtain ⟨hkne, hkall⟩ := validKey_all k hk
  have hvnb : ∀ c ∈ v.data, c ≠ '\\' := fun c hc => (validValue_all v hv c hc).1
  have hshape0 : renderPair (k, v) ++ rest =
      k.data ++ '=' :: ('"' :: (escapeVal v.data ++ '"' :: rest)) := by
    simp [renderPair]
  have hdw : (renderPair (k, v) ++ rest).dropWhile isWordChar =
      '=' :: '"' :: (escapeVal v.data ++ '"' :: rest) := by
    rw [hshape0]
    exact dropWhile_append_not _ _ _ _ hkall (by decide)
  have htw : (renderPair (k, v) ++ rest).takeWhile isWordChar = k.data := by
    rw [hshape0]
    exact takeWhile_append_not _ _ _ _ hkall (by decide)
  rcases hkd : k.data with - | ⟨kc, kt⟩
  · exact absurd hkd hkne
  · have hshape : renderPair (k, v) ++ rest =
        kc :: (kt ++ '=' :: ('"' :: (escapeVal v.data ++ '"' :: rest))) := by
      rw [hshape0, hkd]
      rfl
    rw [hshape] at hdw htw ⊢
    have hkc : isWordChar kc = true := hkall kc (by rw [hkd]; simp)
    conv_lhs => rw [paramScan.eq_def]
    simp only [hkc, if_true]
    split
    · rename_i r2 heq
      rw [hdw] at heq
      injection heq with h1 hrest
      injection hrest with h2 hrest
      subst hrest
      split
      · rename_i v1 r3 heq2
        have hmap := scanValue_render v.data rest hvnb
        rw [heq2] at hmap
        have hpair : (v1, r3.1) = (escapeVal v.data, rest) := by
          simpa [Option.map_some'] using hmap
        have hv1 : v1 = escapeVal v.data := congrArg Prod.fst hpair
        have hr3 : r3.1 = rest := congrArg Prod.snd hpair
        rw [htw, hv1, hr3, unescape_escapeVal v.data hvnb]
      · rename_i heq2
        have hmap := scanValue_render v.data rest hvnb
        rw [heq2] at hmap
        simp [Option.map] at hmap
    · rename_i hno
      exact absurd (hdw.trans rfl) (by intro hcon; exact hno _ hcon)

theorem paramScan_notword (c : Char) (l : List Char) (hc : isWordChar c = false) :
    paramScan (c :: l) = paramScan l := by
  conv_lhs => rw [paramScan.eq_def]
  simp [hc]

theorem paramScan_nil : paramScan [] = [] := by
  rw [paramScan.eq_def]

theorem paramScan_renderArgs (ps : List (String × String))
    (hkeys : ∀ p ∈ ps, validKey p.1 = true)
    (hvals : ∀ p ∈ ps, validValue p.2 = true) :
    paramScan (renderArgs ps) = ps := by
  induction ps with
  | nil =>
    rw [show renderArgs [] = [] from rfl, paramScan_nil]
  | cons p ps ih =>
    rcases ps with - | ⟨q, qs⟩
    · have h := paramScan_pair p.1 p.2 [] (hkeys p (by simp)) (hvals p (by simp))
      simpa [renderArgs, paramScan_nil] using h
    · have hra : renderArgs (p :: q :: qs) =
          renderPair p ++ ',' :: ' ' :: renderArgs (q :: qs) := rfl
      rw [hra, paramScan_pair p.1 p.2 _ (hkeys p (by simp)) (hvals p (by simp)),
        paramScan_notword ',' _ (by decide), paramScan_notword ' ' _ (by decide),
        ih (fun r hr => hkeys r (by simp [hr])) (fun r hr => hvals r (by simp [hr]))]

theorem extractArgs_render (nm args post : List Char) (hargs : ∀ c ∈ args, c ≠ ')') :
    extractArgs nm (args ++ ')' :: post) = some (nm, args) := by
  unfold extractArgs
  have h1 : (args ++ ')' :: post).dropWhile (fun c => !(c == ')')) = ')' :: post :=
    dropWhile_append_not _ _ _ _ (fun a ha => by simpa using hargs a ha) (by decide)
  have h2 : (args ++ ')' :: post).takeWhile (fun c => !(c == ')')) = args :=
    takeWhile_append_not _ _ _ _ (fun a ha => by simpa using hargs a ha) (by decide)
  rw [h1, h2]
  rfl

theorem dropWhile_space_word (l t : List Char) (hl : l ≠ [])
    (hw : ∀ c ∈ l, isWordChar c = true) :
    (' ' :: (l ++ t)).dropWhile isSpaceChar = l ++ t := by
  rcases l with - | ⟨c, l⟩
  · exact absurd rfl hl
  · rw [List.dropWhile_cons]
    simp only [show isSpaceChar ' ' = true from rfl, if_true, List.cons_append,
      List.dropWhile_cons, word_not_space c (hw c (by simp)), Bool.false_eq_true, if_false]


theorem matchActionTail_undotted (p1 args post : List Char)
    (hp1ne : p1 ≠ []) (hp1all : ∀ c ∈ p1, isWordChar c = true)
    (hargs : ∀ c ∈ args, c ≠ ')') :
    matchActionTail (' ' :: (p1 ++ '(' :: (args ++ ')' :: post))) = some (p1, args) := by
  rw [matchActionTail, dropWhile_space_word _ _ hp1ne hp1all,
    takeWhile_append_not _ _ _ _ hp1all (by decide),
    dropWhile_append_not _ _ _ _ hp1all (by decide)]
  rcases p1 with - | ⟨pc, pt⟩
  · exact absurd rfl hp1ne
  · show extractArgs (pc :: pt) (args ++ ')' :: post) = some (pc :: pt, args)
    exact extractArgs_render _ _ _ hargs

theorem matchActionTail_dotted (p1 p2 args post : List Char)
    (hp1ne : p1 ≠ []) (hp1all : ∀ c ∈ p1, isWordChar c = true)
    (hp2ne : p2 ≠ []) (hp2all : ∀ c ∈ p2, isWordChar c = true)
    (hargs : ∀ c ∈ args, c ≠ ')') :
    matchActionTail (' ' :: ((p1 ++ '.' :: p2) ++ '(' :: (args ++ ')' :: post))) =
      some (p1 ++ '.' :: p2, args) := by
  have hsh : (p1 ++ '.' :: p2) ++ '(' :: (args ++ ')' :: post) =
      p1 ++ '.' :: (p2 ++ '(' :: (args ++ ')' :: post)) := by simp
  rw [matchActionTail, hsh, dropWhile_space_word _ _ hp1ne hp1all,
    takeWhile_append_not _ _ _ _ hp1all (by decide),
    dropWhile_append_not _ _ _ _ hp1all (by decide)]
  split
  · exact absurd rfl hp1ne
  · rename_i heq
    injection heq with h1 h2
    subst h2
    rw [takeWhile_append_not _ _ _ _ hp2all (by decide),
      dropWhile_append_not _ _ _ _ hp2all (by decide)]
    rcases p2 with - | ⟨qc, qt⟩
    · exact absurd rfl hp2ne
    · rename_i nm1 nm2 x1 hne
      show extractArgs (nm1 ++ '.' :: (qc :: qt)) (args ++ ')' :: post) =
        some (nm1 ++ '.' :: (qc :: qt), args)
      exact extractArgs_render _ _ _ hargs
  · rename_i heq
    injection heq with h1 h2
    exact absurd h1 (by decide)
  · rename_i hno1 hno2
    exact absurd rfl (hno1 _)

theorem matchActionTail_render (name : String) (args post : List Char)
    (hname : validToolName name = true)
    (hargs : ∀ c ∈ args, c ≠ ')') :
    matchActionTail (' ' :: (name.data ++ '(' :: (args ++ ')' :: post))) =
      some (name.data, args) := by
  rw [validToolName, Bool.and_eq_true] at hname
  obtain ⟨hp1ne, hr⟩ := hname
  have hp1ne' : name.data.takeWhile isWordChar ≠ [] := by simpa using hp1ne
  have hp1all : ∀ c ∈ name.data.takeWhile isWordChar, isWordChar c = true :=
    fun c hc => List.mem_takeWhile_imp hc
  have hnd := (List.takeWhile_append_dropWhile isWordChar name.data).symm
  rcases hcase : name.data.dropWhile isWordChar with - | ⟨rc, r2⟩
  · rw [hcase, List.append_nil] at hnd
    conv_lhs => rw [hnd]
    conv_rhs => rw [hnd]
    exact matchActionTail_undotted _ _ _ hp1ne' hp1all hargs
  · rw [hcase] at hnd hr
    split at hr
    · rename_i heq
      exact absurd heq (by simp)
    · rename_i r2x heq
      injection heq with hrc hr2
      subst hrc
      subst hr2
      rw [Bool.and_eq_true] at hr
      have hr2ne : r2 ≠ [] := by simpa using hr.1
      have hr2all : ∀ c ∈ r2, isWordChar c = true :=
        fun c hc => List.all_eq_true.mp hr.2 c hc
      conv_lhs => rw [hnd]
      conv_rhs => rw [hnd]
      exact matchActionTail_dotted _ _ _ _ hp1ne' hp1all hr2ne hr2all hargs
    · exact absurd hr (by simp)

theorem findAction_append_skip (pre rest : List Char)
    (h : ∀ i < pre.length, actionLit.isPrefixOf ((pre ++ rest).drop i) = false) :
    findAction (pre ++ rest) = findAction rest := by
  induction pre with
  | nil => rfl
  | cons c pre ih =>
    have h0 := h 0 (by simp)
    simp only [List.drop_zero] at h0
    rw [show (c :: pre) ++ rest = c :: (pre ++ rest) from rfl] at h0 ⊢
    rw [findAction]
    simp only [h0, Bool.false_eq_true, if_false]
    refine ih (fun i hi => ?_)
    have hs := h (i + 1) (by simpa using Nat.succ_lt_succ hi)
    simpa using hs

theorem findAction_hit (tail nm args : List Char)
    (hm : matchActionTail tail = some (nm, args)) :
    findAction (actionLit ++ tail) = some (nm, args) := by
  have hpre : actionLit.isPrefixOf (actionLit ++ tail) = true := by
    rw [List.isPrefixOf_iff_prefix]
    exact List.prefix_append _ _
  rw [show actionLit ++ tail = 'A' :: (['c', 't', 'i', 'o', 'n', ':'] ++ tail) from rfl]
    at hpre ⊢
  rw [findAction]
  simp only [hpre, if_true]
  have hdrop : ('A' :: (['c', 't', 'i', 'o', 'n', ':'] ++ tail)).drop 7 = tail := rfl
  rw [hdrop, hm]

theorem escapeVal_mem (v : List Char) (c : Char) (hc : c ∈ escapeVal v) :
    c = '\\' ∨ c = '"' ∨ c ∈ v := by
  induction v with
  | nil => cases hc
  | cons d v ih =>
    by_cases hd : d = '"'
    · subst hd
      rw [show escapeVal ('"' :: v) = '\\' :: '"' :: escapeVal v from rfl] at hc
      rcases List.mem_cons.mp hc with rfl | hc
      · exact Or.inl rfl
      · rcases List.mem_cons.mp hc with rfl | hc
        · exact Or.inr (Or.inl rfl)
        · rcases ih hc with h | h | h
          · exact Or.inl h
          · exact Or.inr (Or.inl h)
          · exact Or.inr (Or.inr (by simp [h]))
    · rw [escapeVal_cons_ne d v hd] at hc
      rcases List.mem_cons.mp hc with rfl | hc
      · exact Or.inr (Or.inr (by simp))
      · rcases ih hc with h | h | h
        · exact Or.inl h
        · exact Or.inr (Or.inl h)
        · exact Or.inr (Or.inr (by simp [h]))

theorem renderPair_no_paren (p : String × String) (hk : validKey p.1 = true)
    (hv : validValue p.2 = true) : ∀ c ∈ renderPair p, c ≠ ')' := by
  intro c hc
  obtain ⟨-, hkall⟩ := validKey_all p.1 hk
  rw [renderPair] at hc
  rcases List.mem_append.mp hc with h | h
  · intro hcp
    subst hcp
    exact absurd (hkall _ h) (by decide)
  · rcases List.mem_cons.mp h with rfl | h
    · decide
    · rcases List.mem_cons.mp h with rfl | h
      · decide
      · rcases List.mem_append.mp h with h | h
        · rcases escapeVal_mem _ _ h with rfl | rfl | h
          · decide
          · decide
          · exact (validValue_all p.2 hv c h).2
        · simp at h
          subst h
          decide

theorem renderArgs_no_paren (ps : List (String × String))
    (hkeys : ∀ p ∈ ps, validKey p.1 = true)
    (hvals : ∀ p ∈ ps, validValue p.2 = true) :
    ∀ c ∈ renderArgs ps, c ≠ ')' := by
  induction ps with
  | nil => intro c hc; cases hc
  | cons p ps ih =>
    intro c hc
    rcases ps with - | ⟨q, qs⟩
    · exact renderPair_no_paren p (hkeys p (by simp)) (hvals p (by simp)) c hc
    · rw [show renderArgs (p :: q :: qs) =
          renderPair p ++ ',' :: ' ' :: renderArgs (q :: qs) from rfl] at hc
      rcases List.mem_append.mp hc with h | h
      · exact renderPair_no_paren p (hkeys p (by simp)) (hvals p (by simp)) c h
      · rcases List.mem_cons.mp h with rfl | h
        · decide
        · rcases List.mem_cons.mp h with rfl | h
          · decide
          · exact ih (fun r hr => hkeys r (by simp [hr]))
              (fun r hr => hvals r (by simp [hr])) c h

/-- Claim C3: for assistant text consisting of any prefix in which no
`Action:` occurrence starts, a well-formed line
`Action: name(k1="v1", ..., kn="vn")` — name an identifier or dotted
identifier pair, keys identifiers, values free of backslashes and closing
parentheses, rendered with every `"` escaped as `\"` — and arbitrary
trailing text (which may contain further Action lines: only the first
occurrence is honored), the Action Parser returns exactly the tool name and
the parameter mapping, with every escaped quote unescaped. -/
theorem C3 (pre post : List Char) (name : String) (ps : List (String × String))
    (hname : validToolName name = true)
    (hkeys : ∀ p ∈ ps, validKey p.1 = true)
    (hvals : ∀ p ∈ ps, validValue p.2 = true)
    (hnodup : (ps.map Prod.fst).Nodup)
    (hpre : ∀ i < pre.length,
      actionLit.isPrefixOf ((pre ++ renderAction name ps post).drop i) = false) :
    parseToolCall ⟨pre ++ renderAction name ps post⟩ = some ⟨name, ps⟩ := by
  rw [parseToolCall]
  have hdata : (⟨pre ++ renderAction name ps post⟩ : String).data =
      pre ++ renderAction name ps post := rfl
  rw [hdata, findAction_append_skip pre _ hpre, renderAction,
    findAction_hit _ _ _ (matchActionTail_render name (renderArgs ps) post hname
      (renderArgs_no_paren ps hkeys hvals))]
  show some (⟨⟨name.data⟩, paramScan (renderArgs ps)⟩ : ToolCall) =
    some ⟨name, ps⟩
  rw [paramScan_renderArgs ps hkeys hvals]

/-- Claim C3 witness: a Thought line, a dotted tool name, two parameters of
which one contains an escaped quote, and trailing text. -/
theorem C3_witness :
    parseToolCall ⟨("Thought: go\n").data ++
      renderAction "browser.search" [("query", "a\"b"), ("limit", "3")]
        ("\nrest").data⟩ =
      some ⟨"browser.search", [("query", "a\"b"), ("limit", "3")]⟩ :=
  C3 ("Thought: go\n").data ("\nrest").data "browser.search"
    [("query", "a\"b"), ("limit", "3")]
    (by decide) (by decide) (by decide) (by decide) (by decide)

/-- Claim C6, evaluated at its failing input: the tool name `constructor` is
not a key of the Tool Registry, yet — because the registry is a plain object
literal — the JavaScript lookup `toolRegistry["constructor"]` finds the
inherited `Object` constructor, so the not-found branch is skipped and the
inherited member is invoked: the resulting Observation is
`JSON.stringify(params)`, which contains neither the literal requested tool
name nor any registered tool name, contradicting the claim.  The Action
Parser accepts the name, so the input is reachable from assistant text; the
last conjunct exhibits the divergence from the idealized map-keyed lookup
(`executeToolCall`), which would have produced the not-found Observation. -/
theorem C6 :
    parseToolCall "Action: constructor(q=\"x\")" =
      some ⟨"constructor", [("q", "x")]⟩ ∧
    List.lookup ("constructor" : String) demoRegistry = none ∧
    executeToolCallJS demoRegistry ⟨"constructor", [("q", "x")]⟩ =
      some "\x7b\"q\":\"x\"\x7d" ∧
    occursIn ("constructor" : String).data ("\x7b\"q\":\"x\"\x7d" : String).data = false ∧
    occursIn ("t" : String).data ("\x7b\"q\":\"x\"\x7d" : String).data = false ∧
    executeToolCallJS demoRegistry ⟨"constructor", [("q", "x")]⟩ ≠
      some (executeToolCall demoRegistry ⟨"constructor", [("q", "x")]⟩) := by
  have hps : paramScan ['q', '=', '"', 'x', '"'] = [("q", "x")] :=
    paramScan_renderArgs [("q", "x")] (by decide) (by decide)
  refine ⟨?_, rfl, rfl, by decide, by decide, by decide⟩
  show some (⟨⟨"constructor".data⟩, paramScan ['q', '=', '"', 'x', '"']⟩ : ToolCall) =
    some ⟨"constructor", [("q", "x")]⟩
  rw [hps]
